import Mathlib

/-!
Verification of the YesBut backend's convergence and coordination algorithms.

This file is a shallow embedding, in Lean 4, of the algorithmic core of the
YesBut multi-agent debate backend:

* the branch lock service (`app/services/lock_service.py`, in particular the
  atomic compare-and-delete release script),
* the Game Arbiter agent (`agents/ga/agent.py`: resource allocation and the
  heuristic Nash-equilibrium iteration),
* the Pareto optimizer (`algorithms/pareto.py`),
* the oscillation / entropy-stagnation detector (`algorithms/oscillation.py`),
* the path analyzer (`algorithms/path_analysis.py`: minimal cut sets and the
  redundancy ratio),
* the convergence controller (`agents/convergence_controller.py`).

Python floats are embedded as rationals (`ℚ`): every arithmetic operation the
embedded code performs (sums, products, divisions, comparisons) is exact at
the inputs the theorems consider, so no rounding behaviour is modelled.
Python dicts whose keys are ids are embedded as association lists; the claims
considered here all assume distinct ids, under which the two agree.
-/

namespace YesBut

/-! ## Branch lock service (`app/services/lock_service.py`)

The Redis value stored under a branch's lock key is a JSON object written by
`acquire_agent_lock` / `request_user_lock`; the fields below are the ones the
service writes.  The lock keyspace is embedded as an association list from
branch key to record (Redis keys are unique). -/

structure LockRecord where
  holder_id : String
  holder_name : String
  holder_type : String
  lock_type : String
  locked_at : String
deriving DecidableEq

abbrev LockStore := List (String × LockRecord)

/-- Embedding of `RELEASE_LOCK_SCRIPT` as invoked by
`BranchLockService.release_lock`: the Lua script reads the lock record under
the branch's key, returns 0 when there is none, deletes the record and
returns 1 when its `holder_id` equals the argument, and returns 0 otherwise.
The whole script runs as one atomic step against the store, so it is embedded
as a single function from store to (store, released?). -/
def releaseLock (store : LockStore) (branchId holderId : String) :
    LockStore × Bool :=
  match store.lookup branchId with
  | none => (store, false)
  | some r =>
    if r.holder_id = holderId then
      (store.eraseP (fun kv => kv.fst == branchId), true)
    else
      (store, false)

/-! ## Game Arbiter agent (`agents/ga/agent.py`) -/

/-- A branch dict as the Game Arbiter reads it: `branch.get("id", "")` and
`branch.get("utility_score", 0.5)`.  The id is embedded as a natural number
(the claims under consideration use distinct numeric ids); the utility score
keeps the `.get` default of 0.5 via an `Option`. -/
structure GABranch where
  id : ℕ
  utility_score : Option ℚ
deriving DecidableEq

/-- `branch.get("utility_score", 0.5)`. -/
def GABranch.utility (b : GABranch) : ℚ := b.utility_score.getD (1/2)

/-- Embedding of `GameArbiterAgent.compute_resource_allocation`.  The Python
result is a dict keyed by branch id, built by iterating over `branches`; with
distinct ids that is the association list below, in branch order. -/
def computeResourceAllocation (resource_budget : ℚ)
    (branches pareto_front : List GABranch) : List (ℕ × ℚ) :=
  if branches = [] then []
  else
    let total_utility : ℚ := (branches.map (fun b => b.utility)).sum
    let allocation : List (ℕ × ℚ) := branches.map (fun b =>
      let base0 : ℚ :=
        if 0 < total_utility then b.utility / total_utility * resource_budget
        else resource_budget / (branches.length : ℚ)
      let base : ℚ :=
        if pareto_front.any (fun p => p.id == b.id) then base0 * (12/10)
        else base0
      (b.id, min base (resource_budget * (1/2))))
    let total_allocated : ℚ := (allocation.map Prod.snd).sum
    if resource_budget < total_allocated then
      allocation.map (fun kv => (kv.fst, kv.snd * (resource_budget / total_allocated)))
    else
      allocation

/-- Entry `conflict_matrix[i][j]` when both indices are in range, else 0: the
Python loop adds `strategies[...] * conflict_matrix[i][j]` only under
`i < len(conflict_matrix) and j < len(conflict_matrix[i])`, which is the same
as always adding with an out-of-range entry read as 0. -/
def mget (M : List (List ℚ)) (i j : ℕ) : ℚ := (M.getD i []).getD j 0

/-- `strategies.get(branch_id, 0)`. -/
def slookup (strategies : List (ℕ × ℚ)) (i : ℕ) : ℚ := (strategies.lookup i).getD 0

/-- One iteration of the `compute_nash_equilibrium` loop: best-response update
clamped to [0.1, 0.9], then renormalisation by the total. -/
def nashStep (branches : List GABranch) (M : List (List ℚ))
    (strategies : List (ℕ × ℚ)) : List (ℕ × ℚ) :=
  let new_strategies : List (ℕ × ℚ) := branches.enum.map (fun ib =>
    let payoff : ℚ := (branches.enum.map (fun jo =>
      slookup strategies jo.snd.id * mget M ib.fst jo.fst)).sum
    (ib.snd.id,
      max (1/10) (min (9/10) (slookup strategies ib.snd.id + (1/10) * payoff))))
  let total : ℚ := (new_strategies.map Prod.snd).sum
  new_strategies.map (fun kv => (kv.fst, kv.snd / total))

structure NashResult where
  equilibrium_strategies : List (ℕ × ℚ)
  stable_branches : List ℕ
  eliminated_branches : List ℕ
deriving DecidableEq

/-- Embedding of `GameArbiterAgent.compute_nash_equilibrium`: uniform initial
mixed strategy, ten `nashStep` iterations, then the `0.1 / n` threshold split
into stable and eliminated branches. -/
def computeNashEquilibrium (branches : List GABranch) (M : List (List ℚ)) :
    NashResult :=
  if branches = [] then ⟨[], [], []⟩
  else
    let n : ℕ := branches.length
    let init : List (ℕ × ℚ) := branches.map (fun b => (b.id, 1 / (n : ℚ)))
    let strategies := (nashStep branches M)^[10] init
    let threshold : ℚ := (1/10) / (n : ℚ)
    ⟨strategies,
     (branches.filter (fun b => threshold < slookup strategies b.id)).map GABranch.id,
     (branches.filter (fun b => slookup strategies b.id ≤ threshold)).map GABranch.id⟩

/-! ## Pareto optimizer (`algorithms/pareto.py`) -/

/-- A solution dict: objective name to value, read as `solution.get(obj, 0)`. -/
abbrev Solution := List (String × ℚ)

/-- `solution.get(obj, 0)`. -/
def Solution.getObj (s : Solution) (obj : String) : ℚ := (s.lookup obj).getD 0

/-- The loop body of `ParetoOptimizer.dominates`: walk
`zip(objectives, directions)`, return `False` as soon as `a` is worse on an
objective, and carry the `strictly_better` flag. -/
def dominatesGo : List (String × String) → Solution → Solution → Bool → Bool
  | [], _, _, strictly_better => strictly_better
  | (obj, direction) :: rest, a, b, strictly_better =>
    let a_val := a.getObj obj
    let b_val := b.getObj obj
    if direction = "max" then
      if a_val < b_val then false
      else dominatesGo rest a b (strictly_better || decide (b_val < a_val))
    else
      if b_val < a_val then false
      else dominatesGo rest a b (strictly_better || decide (a_val < b_val))

/-- Embedding of `ParetoOptimizer.dominates`. -/
def dominates (objectives directions : List String) (a b : Solution) : Bool :=
  dominatesGo (objectives.zip directions) a b false

/-- Embedding of `ParetoOptimizer.compute_pareto_front`: keep every candidate
no other solution dominates.  The Python inner loop skips `other is candidate`
(object identity); since `dominates` is irreflexive (`dominates_self` below)
and two distinct-but-equal dicts are compared anyway, scanning all of
`solutions` computes the same front. -/
def computeParetoFront (objectives directions : List String)
    (solutions : List Solution) : List Solution :=
  if solutions = [] then []
  else solutions.filter (fun candidate =>
    !(solutions.any (fun other => dominates objectives directions other candidate)))

/-! ## Oscillation detector (`algorithms/oscillation.py`)

The detector is embedded in its no-embedding-model configuration
(`embedding_model=None`), under which `compute_position_similarity` always
takes the deterministic word-overlap fallback — the configuration the
repository's own unit tests run and the one the spec calls the documented
heuristic fallback. -/

/-- Python `text.lower().split()`: lowercase, split on whitespace runs,
discard empty chunks.  Embedded over the character list of the string. -/
def pyWords (text : String) : List String :=
  (((text.data.map Char.toLower).splitOnP Char.isWhitespace).filter
    (fun w => w ≠ [])).map (fun w => String.mk w)

/-- Embedding of `OscillationDetector._word_overlap_similarity`:
Jaccard overlap of the two word sets, 0 when either is empty. -/
def wordOverlapSimilarity (text_a text_b : String) : ℚ :=
  let words_a := (pyWords text_a).toFinset
  let words_b := (pyWords text_b).toFinset
  if words_a = ∅ ∨ words_b = ∅ then 0
  else
    let intersection := (words_a ∩ words_b).card
    let union := (words_a ∪ words_b).card
    if 0 < union then (intersection : ℚ) / (union : ℚ) else 0

/-- Embedding of `OscillationDetector.compute_position_similarity` with no
embedding model: 0 for an empty position, word overlap otherwise. -/
def computePositionSimilarity (position_a position_b : String) : ℚ :=
  if position_a = "" ∨ position_b = "" then 0
  else wordOverlapSimilarity position_a position_b

/-- State of an `OscillationDetector` (constructor defaults: threshold 0.85,
entropy decrease 0.1, stagnation rounds 3, empty histories). -/
structure OscillationDetector where
  similarity_threshold : ℚ
  entropy_decrease_threshold : ℚ
  stagnation_rounds : ℕ
  position_history : List (List (String × String))
  entropy_history : List ℚ
deriving DecidableEq

/-- Embedding of `OscillationDetector.record_round`: append the round's
positions and entropy. -/
def OscillationDetector.record_round (d : OscillationDetector)
    (positions : List (String × String)) (entropy : ℚ) : OscillationDetector :=
  { d with
    position_history := d.position_history ++ [positions],
    entropy_history := d.entropy_history ++ [entropy] }

/-- Python `l[-k:]`: the last `k` entries when `0 < k`; all of the list when
`k = 0`, since `l[-0:]` is `l[0:]`. -/
def pySliceLast (l : List α) (k : ℕ) : List α :=
  if k = 0 then l else l.drop (l.length - k)

/-- `h.get(branch_id, "")` on one round's positions dict. -/
def posGet (h : List (String × String)) (branch_id : String) : String :=
  (h.lookup branch_id).getD ""

/-- One branch's positions over the last three recorded rounds:
`[h.get(branch_id, "") for h in self.position_history[-3:]]`. -/
def OscillationDetector.windowPositions (d : OscillationDetector)
    (branch_id : String) : List String :=
  (pySliceLast d.position_history 3).map (fun h => posGet h branch_id)

/-- The oscillation test of `_check_similarity_oscillation` on one branch's
three-round window `[p0, p1, p2]`: rounds r-2 and r similar above the
threshold, both adjacent pairs dissimilar below it. -/
def oscPattern (threshold : ℚ) : List String → Bool
  | [p0, p1, p2] =>
    decide (threshold < computePositionSimilarity p0 p2)
      && decide (computePositionSimilarity p0 p1 < threshold)
      && decide (computePositionSimilarity p1 p2 < threshold)
  | _ => false

/-- Embedding of `OscillationDetector._check_similarity_oscillation` as its
boolean outcome: some branch of the last recorded round shows the oscillation
pattern over the three-round window.  (The Python dict also reports which
branch and the three similarities; only the outcome feeds
`check_oscillation`.) -/
def OscillationDetector.checkSimilarityOscillation
    (d : OscillationDetector) : Bool :=
  if d.position_history.length < 3 then false
  else ((d.position_history.getLast?.getD []).map Prod.fst).any
    (fun branch_id => oscPattern d.similarity_threshold (d.windowPositions branch_id))

/-- Embedding of `OscillationDetector.check_entropy_stagnation`: `False`
until more than `stagnation_rounds` entropies are recorded, then `True` iff
no consecutive pair of the last `stagnation_rounds` entries drops by at least
the threshold. -/
def OscillationDetector.check_entropy_stagnation (d : OscillationDetector) : Bool :=
  if d.entropy_history.length < d.stagnation_rounds + 1 then false
  else
    let recent := pySliceLast d.entropy_history d.stagnation_rounds
    (recent.zip recent.tail).all
      (fun pc => !(decide (d.entropy_decrease_threshold ≤ pc.fst - pc.snd)))

/-- The `trigger` field of `check_oscillation`'s result dict. -/
inductive OscTrigger
  | similarity
  | entropy_stagnation
deriving DecidableEq

/-- Embedding of `OscillationDetector.check_oscillation` as its trigger:
`none` below three rounds, otherwise the similarity check first, then the
entropy stagnation check. -/
def OscillationDetector.check_oscillation (d : OscillationDetector) :
    Option OscTrigger :=
  if d.position_history.length < 3 then none
  else if d.checkSimilarityOscillation then some .similarity
  else if d.check_entropy_stagnation then some .entropy_stagnation
  else none

/-! ## Convergence controller (`agents/convergence_controller.py`)

In the repository this class declares its interface and state
(`__init__`, the docstrings, the implemented `check_max_rounds` and `reset`)
but `record_round`, `check_convergence`, `check_oscillation` and
`check_entropy_stagnation` have `NotImplementedError` placeholder bodies.
The missing bodies are modelled from the spec (§4.3), reusing the detector
algorithms of `algorithms/oscillation.py` that the spec's trigger
descriptions match word for word. -/

/-- `ConvergenceTrigger` enum of `agents/convergence_controller.py`. -/
inductive ConvergenceTrigger
  | max_rounds
  | oscillation
  | entropy_stagnation
  | user_forced
deriving DecidableEq

/-- State of a `ConvergenceController` as `__init__` lays it out:
thresholds, a round counter starting at 0 and empty histories. -/
structure ConvergenceController where
  max_rounds : ℕ
  similarity_threshold : ℚ
  entropy_threshold : ℚ
  stagnation_rounds : ℕ
  round_counter : ℕ
  position_history : List (List (String × String))
  entropy_history : List ℚ
deriving DecidableEq

/-- A freshly constructed controller: `__init__` defaults for every argument
except `max_rounds` (similarity 0.85, entropy threshold 0.1, stagnation 3). -/
def ConvergenceController.mkDefault (max_rounds : ℕ) : ConvergenceController :=
  ⟨max_rounds, 17/20, 1/10, 3, 0, [], []⟩

/-- Embedding of `ConvergenceController.check_max_rounds` (implemented in the
source): `self.round_counter >= self.max_rounds`. -/
def ConvergenceController.check_max_rounds (c : ConvergenceController) : Bool :=
  c.max_rounds ≤ c.round_counter

/-- The controller's rolling state viewed as an `OscillationDetector` with
the same thresholds and histories. -/
def ConvergenceController.toDetector (c : ConvergenceController) :
    OscillationDetector :=
  ⟨c.similarity_threshold, c.entropy_threshold, c.stagnation_rounds,
   c.position_history, c.entropy_history⟩

/-- Modelled from the spec: `ConvergenceController.record_round` has a
`NotImplementedError` body in the source.  Per §4.3, rounds accumulate
`(positionsByBranch, entropy)` into the window, and the round counter that
`check_max_rounds` reads counts recorded rounds. -/
def ConvergenceController.record_round (c : ConvergenceController)
    (branch_positions : List (String × String)) (semantic_entropy : ℚ) :
    ConvergenceController :=
  { c with
    round_counter := c.round_counter + 1,
    position_history := c.position_history ++ [branch_positions],
    entropy_history := c.entropy_history ++ [semantic_entropy] }

/-- Modelled from the spec: `ConvergenceController.check_oscillation` has a
`NotImplementedError` body in the source; §4.3's trigger 2 is the
three-round-window similarity pattern implemented by
`OscillationDetector._check_similarity_oscillation`. -/
def ConvergenceController.check_oscillation (c : ConvergenceController) : Bool :=
  c.toDetector.checkSimilarityOscillation

/-- Modelled from the spec: `ConvergenceController.check_entropy_stagnation`
has a `NotImplementedError` body in the source; §4.3's trigger 3 is the
consecutive-decrease check implemented by
`OscillationDetector.check_entropy_stagnation`. -/
def ConvergenceController.check_entropy_stagnation (c : ConvergenceController) : Bool :=
  c.toDetector.check_entropy_stagnation

/-- Modelled from the spec: `ConvergenceController.check_convergence` has a
`NotImplementedError` body in the source.  Its docstring and §4.3 fix the
strict order — max rounds, then oscillation, then entropy stagnation — and
the first trigger that fires is returned, else `None`. -/
def ConvergenceController.check_convergence (c : ConvergenceController) :
    Option ConvergenceTrigger :=
  if c.check_max_rounds then some .max_rounds
  else if c.check_oscillation then some .oscillation
  else if c.check_entropy_stagnation then some .entropy_stagnation
  else none

/-! ## Path analyzer (`algorithms/path_analysis.py`) -/

/-- An edge dict as `_build_adjacency` reads it: `source_id`, `target_id`,
`type`. -/
structure PEdge where
  source_id : String
  target_id : String
  type : String
deriving DecidableEq

/-- The graph data handed to `PathAnalyzer`: node ids (the keys of the
`nodes` dict) and the edge list. -/
structure PGraph where
  nodes : List String
  edges : List PEdge
deriving DecidableEq

/-- The keys of `self.nodes = {n["id"]: n for n in ...}`: node ids in first
occurrence order. -/
def PGraph.nodeIds (g : PGraph) : List String := g.nodes.dedup

/-- `self.children[n]` built by `_build_adjacency`: targets of the
`decompose` edges out of `n`, in edge order. -/
def PGraph.childrenOf (g : PGraph) (n : String) : List String :=
  (g.edges.filter (fun e => e.type = "decompose" && e.source_id = n)).map
    PEdge.target_id

/-- `_find_leaf_nodes`: node ids with no children. -/
def PGraph.findLeafNodes (g : PGraph) : List String :=
  g.nodeIds.filter (fun n => g.childrenOf n = [])

/-- Embedding of `PathAnalyzer.find_all_paths`: DFS enumeration of simple
paths bounded by `max_depth` (the fuel), with the `from == to` base case
tested before the visited/depth guard, exactly as in the source. -/
def findAllPaths (children : String → List String) (from_node to_node : String)
    (visited : List String) : ℕ → List (List String)
  | 0 =>
    if from_node = to_node then [[from_node]] else []
  | fuel + 1 =>
    if from_node = to_node then [[from_node]]
    else if from_node ∈ visited then []
    else ((children from_node).map (fun child =>
      (findAllPaths children child to_node (from_node :: visited) fuel).map
        (fun path => from_node :: path))).flatten

/-- All goal-to-leaf paths the analyzer enumerates for one leaf, at the
default `max_depth=20` starting from an empty visited set. -/
def PGraph.pathsTo (g : PGraph) (goal_node_id leaf : String) : List (List String) :=
  findAllPaths g.childrenOf goal_node_id leaf [] 20

/-- Python `path[1:-1]`: the path without its first and last node. -/
def pyMiddle (path : List String) : List String := (path.drop 1).dropLast

/-- The nodes common to every path of `paths` (each path without its first
and last node): `common = set(paths[0][1:-1]); common &= set(path[1:-1])`.
The Python value is a set; it is embedded as the duplicate-free list of its
members in first-path order (a Python set iterates in an unspecified order,
and every property proved below is order-insensitive). -/
def commonMiddle (paths : List (List String)) : List String :=
  paths.tail.foldl (fun common path => common.filter (fun n => n ∈ pyMiddle path))
    (pyMiddle (paths.headD [])).dedup

/-- The singleton cut sets one leaf contributes in
`PathAnalyzer.compute_minimal_cut_sets`: with a single path every
intermediate node (in path order), with several paths every node common to
all the intermediate node sets. -/
def PGraph.leafCutSets (g : PGraph) (goal_node_id leaf : String) :
    List (Finset String) :=
  let paths := g.pathsTo goal_node_id leaf
  if paths = [] then []
  else if paths.length = 1 then
    (pyMiddle (paths.headD [])).map (fun node => {node})
  else
    (commonMiddle paths).map (fun node => {node})

/-- `if cut_set not in minimal: minimal.append(cut_set)`. -/
def appendIfNew (cut_set : Finset String) (pruned : List (Finset String)) :
    List (Finset String) :=
  if cut_set ∈ pruned then pruned else pruned ++ [cut_set]

/-- Embedding of `PathAnalyzer._minimize_cut_sets`'s main loop (the input is
pre-sorted by size by the caller below): keep a set unless an already-kept
set is a subset of it, and drop kept sets that strictly contain it. -/
def minimizeGo (minimal : List (Finset String)) :
    List (Finset String) → List (Finset String)
  | [] => minimal
  | cut_set :: rest =>
    if minimal.any (fun existing => existing ⊆ cut_set) then
      minimizeGo minimal rest
    else
      minimizeGo
        (appendIfNew cut_set (minimal.filter (fun m => !(cut_set ⊂ m)))) rest

/-- Stable insertion of a set into a list kept sorted by ascending size: the
new set goes after every set of smaller or equal size. -/
def insertByCard (s : Finset String) : List (Finset String) → List (Finset String)
  | [] => [s]
  | t :: rest =>
    if t.card ≤ s.card then t :: insertByCard s rest else s :: t :: rest

/-- Python's stable `sorted(cut_sets, key=len)`: ascending by size, equal
sizes in input order. -/
def sortByCard (cut_sets : List (Finset String)) : List (Finset String) :=
  cut_sets.foldl (fun sorted_sets s => insertByCard s sorted_sets) []

/-- Embedding of `PathAnalyzer._minimize_cut_sets`: sort by size
(`sorted(cut_sets, key=len)`, stable), then the subset-pruning loop. -/
def minimizeCutSets (cut_sets : List (Finset String)) : List (Finset String) :=
  if cut_sets = [] then []
  else minimizeGo [] (sortByCard cut_sets)

/-- Embedding of `PathAnalyzer.compute_minimal_cut_sets`: singleton cut sets
gathered per leaf, then minimised. -/
def PGraph.computeMinimalCutSets (g : PGraph) (goal_node_id : String) :
    List (Finset String) :=
  let leaf_nodes := g.findLeafNodes
  if leaf_nodes = [] then []
  else
    minimizeCutSets
      ((leaf_nodes.map (fun leaf => g.leafCutSets goal_node_id leaf)).flatten)

/-- Return type of `compute_redundancy_ratio`: a Python float that is either
`float('inf')` or a finite value. -/
inductive RatioValue
  | infinity
  | finite (value : ℚ)
deriving DecidableEq

/-- The `(critical_count, redundant_count)` pair accumulated by the loop of
`PathAnalyzer.compute_redundancy_ratio`: a leaf with exactly one path is
critical, any other leaf adds all its paths to the redundant count. -/
def PGraph.pathCounts (g : PGraph) (goal_node_id : String) : ℕ × ℕ :=
  g.findLeafNodes.foldl
    (fun counts leaf =>
      let paths := g.pathsTo goal_node_id leaf
      if paths.length = 1 then (counts.fst + 1, counts.snd)
      else (counts.fst, counts.snd + paths.length))
    (0, 0)

/-- Embedding of `PathAnalyzer.compute_redundancy_ratio`. -/
def PGraph.computeRedundancyRatio (g : PGraph) (goal_node_id : String) :
    RatioValue :=
  let counts := g.pathCounts goal_node_id
  if counts.fst = 0 then
    if 0 < counts.snd then .infinity else .finite 1
  else
    .finite ((counts.snd : ℚ) / (counts.fst : ℚ))

/-! ## General helper lemmas -/

theorem lookup_mem {α β : Type} [BEq α] [LawfulBEq α] {l : List (α × β)} {k : α}
    {v : β} (h : l.lookup k = some v) : (k, v) ∈ l := by
  induction l with
  | nil => simp [List.lookup] at h
  | cons a t ih =>
    obtain ⟨ka, va⟩ := a
    rw [List.lookup] at h
    by_cases hk : k = ka
    · subst hk
      simp only [beq_self_eq_true] at h
      obtain rfl : va = v := by simpa using h
      exact List.mem_cons_self _ _
    · have hb : (k == ka) = false := beq_false_of_ne hk
      rw [hb] at h
      exact List.mem_cons_of_mem _ (ih h)

theorem lookup_of_mem_keys {α β : Type} [BEq α] [LawfulBEq α]
    {l : List (α × β)} {k : α} (h : k ∈ l.map Prod.fst) :
    ∃ v, l.lookup k = some v := by
  induction l with
  | nil => simp at h
  | cons a t ih =>
    obtain ⟨ka, va⟩ := a
    rw [List.lookup]
    by_cases hk : k = ka
    · subst hk
      exact ⟨va, by simp⟩
    · have hb : (k == ka) = false := beq_false_of_ne hk
      rw [hb]
      refine ih ?_
      simpa [hk] using h

theorem perm_any_eq {α : Type} {l₁ l₂ : List α} (h : l₁.Perm l₂) (f : α → Bool) :
    l₁.any f = l₂.any f := by
  cases hx : l₂.any f
  · rw [List.any_eq_false] at hx ⊢
    intro x hxm
    exact hx x (h.mem_iff.mp hxm)
  · rw [List.any_eq_true] at hx ⊢
    obtain ⟨x, hm, hf⟩ := hx
    exact ⟨x, h.mem_iff.mpr hm, hf⟩

theorem enumFrom_map_snd_id (n : ℕ) (l : List GABranch) :
    (List.enumFrom n l).map (fun ib => ib.snd.id) = l.map GABranch.id := by
  induction l generalizing n with
  | nil => rfl
  | cons a t ih => simp only [List.enumFrom_cons, List.map_cons, ih]

theorem zip_tail_all_iff (g : ℚ → ℚ → Bool) (l : List ℚ) :
    ((l.zip l.tail).all (fun pc => g pc.fst pc.snd) = true) ↔
      ∀ i : ℕ, i + 1 < l.length → g (l.getD i 0) (l.getD (i+1) 0) = true := by
  induction l with
  | nil => simp
  | cons a t ih =>
    cases t with
    | nil => simp
    | cons b t' =>
      rw [List.tail_cons, List.zip_cons_cons, List.all_cons, Bool.and_eq_true]
      have htail : (b :: t').zip t' = ((b :: t').zip ((b :: t').tail)) := by
        rw [List.tail_cons]
      rw [htail, ih]
      constructor
      · rintro ⟨hab, hrest⟩
        intro i hi
        cases i with
        | zero => exact hab
        | succ j =>
          have hj : j + 1 < (b :: t').length := by
            simpa [List.length_cons] using hi
          exact hrest j hj
      · intro hall
        refine ⟨hall 0 (by simp), ?_⟩
        intro i hi
        exact hall (i+1) (by simpa [List.length_cons] using hi)

/-! ## C7 — release_lock is an atomic compare-and-delete -/

/-- C7: for every lock-store state, `release_lock(branchId, holderId)` is a
no-op returning `false` when no record exists or when the existing record's
`holder_id` differs from the caller's; the record is deleted and `true`
returned exactly when the holder matches — the single atomic
compare-and-delete of `RELEASE_LOCK_SCRIPT`. -/
theorem releaseLock_compare_and_delete (store : LockStore)
    (branchId holderId : String) :
    (store.lookup branchId = none →
        releaseLock store branchId holderId = (store, false))
    ∧ (∀ r : LockRecord, store.lookup branchId = some r →
        r.holder_id ≠ holderId →
        releaseLock store branchId holderId = (store, false))
    ∧ (∀ r : LockRecord, store.lookup branchId = some r →
        r.holder_id = holderId →
        releaseLock store branchId holderId =
          (store.eraseP (fun kv => kv.fst == branchId), true)) := by
  refine ⟨fun h => ?_, fun r h hne => ?_, fun r h he => ?_⟩
  · rw [releaseLock, h]
  · rw [releaseLock, h]
    simp [hne]
  · rw [releaseLock, h]
    simp [he]

/-! ## C2 — the budget-1 scenario with utilities 0.8 / 0.2 -/

/-- C2 (counterexample): with budget 1, branches `{1: 0.8}` and `{2: 0.2}`
and an empty Pareto front, the code returns `{1: 0.5, 2: 0.2}` — branch 1's
0.8 proportional share is capped at `budget * 0.5` — so the values sum to
0.7, not 1.0 as the claim states. -/
theorem resource_allocation_scenario_counterexample :
    (computeResourceAllocation 1 [⟨1, some (4/5)⟩, ⟨2, some (1/5)⟩] []
        = [(1, 1/2), (2, 1/5)])
    ∧ ((computeResourceAllocation 1
        [⟨1, some (4/5)⟩, ⟨2, some (1/5)⟩] []).map Prod.snd).sum ≠ 1 := by
  have hne : ([⟨1, some (4/5)⟩, ⟨2, some (1/5)⟩] : List GABranch) ≠ [] := by simp
  constructor
  · norm_num [computeResourceAllocation, GABranch.utility, min_def, hne]
  · norm_num [computeResourceAllocation, GABranch.utility, min_def, hne]

/-- C2 (amended): the same scenario returns exactly `{1: 0.5, 2: 0.2}` (the
0.5 per-branch cap binds for branch 1, and no renormalisation runs because
the capped total 0.7 does not exceed the budget), and the values sum to 0.7,
which is at most the budget. -/
theorem resource_allocation_scenario_amended :
    (computeResourceAllocation 1 [⟨1, some (4/5)⟩, ⟨2, some (1/5)⟩] []
        = [(1, 1/2), (2, 1/5)])
    ∧ (((computeResourceAllocation 1
        [⟨1, some (4/5)⟩, ⟨2, some (1/5)⟩] []).map Prod.snd).sum = 7/10)
    ∧ ((7:ℚ)/10 ≤ 1) := by
  have hne : ([⟨1, some (4/5)⟩, ⟨2, some (1/5)⟩] : List GABranch) ≠ [] := by simp
  refine ⟨?_, ?_, by norm_num⟩
  · norm_num [computeResourceAllocation, GABranch.utility, min_def, hne]
  · norm_num [computeResourceAllocation, GABranch.utility, min_def, hne]

/-! ## C3 — allocations stay within budget and under the per-branch cap -/

/-- C3: for every finite branch list with utilities in [0, 1] and distinct
ids, and every Pareto front, the allocation values sum to at most the budget
and no single value exceeds `budget * 0.5`. -/
theorem computeResourceAllocation_bounded (resource_budget : ℚ)
    (branches pareto_front : List GABranch)
    (hb : 0 ≤ resource_budget)
    (hu : ∀ b ∈ branches, 0 ≤ b.utility ∧ b.utility ≤ 1)
    (hids : (branches.map GABranch.id).Nodup) :
    (((computeResourceAllocation resource_budget branches pareto_front).map
        Prod.snd).sum ≤ resource_budget)
    ∧ (∀ kv ∈ computeResourceAllocation resource_budget branches pareto_front,
        kv.snd ≤ resource_budget * (1/2)) := by
  by_cases hbr : branches = []
  · simp [computeResourceAllocation, hbr, hb]
  · have hhalf : (0:ℚ) ≤ resource_budget * (1/2) := by positivity
    set A : List (ℕ × ℚ) := branches.map (fun b =>
      let base0 : ℚ :=
        if 0 < (branches.map (fun b => b.utility)).sum then
          b.utility / (branches.map (fun b => b.utility)).sum * resource_budget
        else resource_budget / (branches.length : ℚ)
      let base : ℚ :=
        if pareto_front.any (fun p => p.id == b.id) then base0 * (12/10)
        else base0
      (b.id, min base (resource_budget * (1/2)))) with hA
    have hmem : ∀ kv ∈ A, 0 ≤ kv.snd ∧ kv.snd ≤ resource_budget * (1/2) := by
      intro kv hkv
      rw [hA] at hkv
      obtain ⟨b, hbmem, rfl⟩ := List.mem_map.mp hkv
      simp only
      constructor
      · refine le_min ?_ hhalf
        have hu0 : 0 ≤ b.utility := (hu b hbmem).1
        have hbase0 : (0:ℚ) ≤
            (if 0 < (branches.map (fun b => b.utility)).sum then
              b.utility / (branches.map (fun b => b.utility)).sum
                * resource_budget
            else resource_budget / (branches.length : ℚ)) := by
          split
          · next h => exact mul_nonneg (div_nonneg hu0 (le_of_lt h)) hb
          · exact div_nonneg hb (by positivity)
        split
        · exact mul_nonneg hbase0 (by norm_num)
        · exact hbase0
      · exact min_le_right _ _
    have hexp : computeResourceAllocation resource_budget branches pareto_front =
        (if resource_budget < ((A.map Prod.snd).sum) then
          A.map (fun kv =>
            (kv.fst, kv.snd * (resource_budget / (A.map Prod.snd).sum)))
        else A) := by
      rw [computeResourceAllocation, if_neg hbr, hA]
    rw [hexp]
    by_cases hT : resource_budget < (A.map Prod.snd).sum
    · have hT0 : (0:ℚ) < (A.map Prod.snd).sum := lt_of_le_of_lt hb hT
      have hc1 : resource_budget / (A.map Prod.snd).sum ≤ 1 :=
        (div_le_one hT0).mpr (le_of_lt hT)
      rw [if_pos hT]
      constructor
      · have hmm : ((A.map (fun kv =>
            (kv.fst, kv.snd * (resource_budget / (A.map Prod.snd).sum)))).map
              Prod.snd)
            = A.map (fun kv =>
                kv.snd * (resource_budget / (A.map Prod.snd).sum)) := by
          simp [List.map_map, Function.comp]
        rw [hmm, List.sum_map_mul_right]
        rw [mul_div_cancel₀]
        exact ne_of_gt hT0
      · intro kv hkv
        obtain ⟨kv0, hkv0, rfl⟩ := List.mem_map.mp hkv
        simp only
        calc kv0.snd * (resource_budget / (A.map Prod.snd).sum)
            ≤ kv0.snd := mul_le_of_le_one_right (hmem kv0 hkv0).1 hc1
          _ ≤ resource_budget * (1/2) := (hmem kv0 hkv0).2
    · rw [if_neg hT]
      exact ⟨not_lt.mp hT, fun kv hkv => (hmem kv hkv).2⟩

/-- C3 (witness): the bounds instantiated at the budget-1 scenario of C2. -/
theorem computeResourceAllocation_bounded_witness :
    (((computeResourceAllocation 1 [⟨1, some (4/5)⟩, ⟨2, some (1/5)⟩] []).map
        Prod.snd).sum ≤ 1)
    ∧ (∀ kv ∈ computeResourceAllocation 1
        [⟨1, some (4/5)⟩, ⟨2, some (1/5)⟩] [],
        kv.snd ≤ 1 * (1/2)) :=
  computeResourceAllocation_bounded 1 [⟨1, some (4/5)⟩, ⟨2, some (1/5)⟩] []
    (by norm_num)
    (by
      intro b hb
      rcases List.mem_cons.mp hb with rfl | hb
      · norm_num [GABranch.utility]
      · rcases List.mem_singleton.mp hb with rfl
        norm_num [GABranch.utility])
    (by simp)

/-! ## C10 — the Nash iteration never eliminates a branch -/

/-- One `nashStep` output: keys are the branch ids in order, the values sum
to 1 and every value is at least `0.1 / (0.9 * n)` — the clamp keeps every
pre-normalisation weight in [0.1, 0.9], so the normalising total is at most
`0.9 * n`. -/
theorem nashStep_spec (branches : List GABranch) (M : List (List ℚ))
    (s : List (ℕ × ℚ)) (hne : branches ≠ []) :
    ((nashStep branches M s).map Prod.fst = branches.map GABranch.id)
    ∧ (((nashStep branches M s).map Prod.snd).sum = 1)
    ∧ (∀ kv ∈ nashStep branches M s,
        (1/10) / ((9/10) * (branches.length : ℚ)) ≤ kv.snd) := by
  have hn : 0 < (branches.length : ℚ) := by
    have := List.length_pos.mpr hne
    exact_mod_cast this
  rw [nashStep]
  set N : List (ℕ × ℚ) := branches.enum.map (fun ib =>
    (ib.snd.id,
      max (1/10) (min (9/10) (slookup s ib.snd.id + (1/10) *
        ((branches.enum.map (fun jo =>
          slookup s jo.snd.id * mget M ib.fst jo.fst)).sum))))) with hN
  have hkeys : N.map Prod.fst = branches.map GABranch.id := by
    rw [hN, List.map_map]
    exact enumFrom_map_snd_id 0 branches
  have hlen : (N.map Prod.snd).length = branches.length := by
    simp [hN, List.enum_length]
  have hvals : ∀ v ∈ N.map Prod.snd, (1/10 : ℚ) ≤ v ∧ v ≤ 9/10 := by
    intro v hv
    rw [hN, List.map_map] at hv
    obtain ⟨ib, -, rfl⟩ := List.mem_map.mp hv
    exact ⟨le_max_left _ _, max_le (by norm_num) (min_le_left _ _)⟩
  set T : ℚ := (N.map Prod.snd).sum with hT
  have hTlow : (branches.length : ℚ) * (1/10) ≤ T := by
    have := List.card_nsmul_le_sum (N.map Prod.snd) ((1:ℚ)/10)
      (fun x hx => (hvals x hx).1)
    rwa [nsmul_eq_mul, hlen] at this
  have hThigh : T ≤ (9/10) * (branches.length : ℚ) := by
    have := List.sum_le_card_nsmul (N.map Prod.snd) ((9:ℚ)/10)
      (fun x hx => (hvals x hx).2)
    rw [nsmul_eq_mul, hlen] at this
    linarith
  have hT0 : 0 < T := lt_of_lt_of_le (by positivity) hTlow
  refine ⟨?_, ?_, ?_⟩
  · rw [List.map_map]
    have hcomp : (Prod.fst ∘ fun kv : ℕ × ℚ => (kv.fst, kv.snd / T))
        = Prod.fst := rfl
    rw [hcomp, hkeys]
  · have hmm : ((N.map (fun kv : ℕ × ℚ => (kv.fst, kv.snd / T))).map Prod.snd)
        = N.map (fun kv => kv.snd * T⁻¹) := by
      simp [List.map_map, Function.comp, div_eq_mul_inv]
    rw [hmm]
    have hmm2 : (N.map (fun kv => kv.snd * T⁻¹)).sum
        = (N.map Prod.snd).sum * T⁻¹ :=
      List.sum_map_mul_right N Prod.snd T⁻¹
    rw [hmm2, ← hT, mul_inv_cancel₀ (ne_of_gt hT0)]
  · intro kv hkv
    obtain ⟨kv0, hkv0, rfl⟩ := List.mem_map.mp hkv
    have hv : (1/10 : ℚ) ≤ kv0.snd :=
      (hvals kv0.snd (List.mem_map_of_mem Prod.snd hkv0)).1
    exact div_le_div₀ (le_trans (by norm_num) hv) hv hT0 hThigh

/-- C10: for every non-empty branch list with distinct ids and every conflict
matrix, the equilibrium strategies sum to 1, every strategy is at least
`0.1 / (0.9 * n)` — strictly above the elimination threshold `0.1 / n` — so
every branch is stable and none is eliminated. -/
theorem computeNashEquilibrium_all_stable (branches : List GABranch)
    (M : List (List ℚ)) (hne : branches ≠ [])
    (hids : (branches.map GABranch.id).Nodup) :
    (((computeNashEquilibrium branches M).equilibrium_strategies.map
        Prod.snd).sum = 1)
    ∧ (∀ kv ∈ (computeNashEquilibrium branches M).equilibrium_strategies,
        (1/10) / ((9/10) * (branches.length : ℚ)) ≤ kv.snd)
    ∧ ((1/10) / (branches.length : ℚ)
        < (1/10) / ((9/10) * (branches.length : ℚ)))
    ∧ ((computeNashEquilibrium branches M).stable_branches
        = branches.map GABranch.id)
    ∧ ((computeNashEquilibrium branches M).eliminated_branches = []) := by
  have hn : 0 < (branches.length : ℚ) := by
    exact_mod_cast List.length_pos.mpr hne
  have hthr : (1/10 : ℚ)/(branches.length:ℚ)
      < (1/10)/((9/10)*(branches.length:ℚ)) := by
    have h1 : (0:ℚ) < (9/10) * (branches.length:ℚ) := by positivity
    have h2 : (9/10) * (branches.length:ℚ) < (branches.length:ℚ) := by linarith
    exact div_lt_div_of_pos_left (by norm_num) h1 h2
  have hiter : (nashStep branches M)^[10]
        (branches.map (fun b => (b.id, 1/(branches.length:ℚ))))
      = nashStep branches M ((nashStep branches M)^[9]
        (branches.map (fun b => (b.id, 1/(branches.length:ℚ))))) :=
    Function.iterate_succ_apply' _ 9 _
  obtain ⟨hkeys, hsum, hbound⟩ := nashStep_spec branches M
    ((nashStep branches M)^[9]
      (branches.map (fun b => (b.id, 1/(branches.length:ℚ)))))
    hne
  have hlook : ∀ b ∈ branches,
      (1/10) / ((9/10) * (branches.length : ℚ)) ≤
        slookup (nashStep branches M ((nashStep branches M)^[9]
          (branches.map (fun b => (b.id, 1/(branches.length:ℚ)))))) b.id := by
    intro b hb
    have hkmem : b.id ∈ (nashStep branches M ((nashStep branches M)^[9]
        (branches.map (fun b => (b.id, 1/(branches.length:ℚ)))))).map
          Prod.fst := by
      rw [hkeys]
      exact List.mem_map_of_mem GABranch.id hb
    obtain ⟨v, hv⟩ := lookup_of_mem_keys hkmem
    rw [slookup, hv, Option.getD_some]
    exact hbound (b.id, v) (lookup_mem hv)
  rw [computeNashEquilibrium, if_neg hne]
  simp only
  rw [hiter]
  refine ⟨hsum, hbound, hthr, ?_, ?_⟩
  · rw [List.filter_eq_self.mpr]
    intro b hb
    exact decide_eq_true (lt_of_lt_of_le hthr (hlook b hb))
  · rw [List.filter_eq_nil_iff.mpr, List.map_nil]
    intro b hb
    simp only [decide_eq_true_eq]
    exact not_le.mpr (lt_of_lt_of_le hthr (hlook b hb))

/-- C10 (witness): a single branch with utility 1 and the one-entry conflict
matrix `[[0]]`. -/
theorem computeNashEquilibrium_all_stable_witness :
    (((computeNashEquilibrium [⟨1, some 1⟩] [[0]]).equilibrium_strategies.map
        Prod.snd).sum = 1)
    ∧ (∀ kv ∈ (computeNashEquilibrium [⟨1, some 1⟩]
        [[0]]).equilibrium_strategies,
        (1/10) / ((9/10) * (([⟨1, some 1⟩] : List GABranch).length : ℚ))
          ≤ kv.snd)
    ∧ ((1/10) / (([⟨1, some 1⟩] : List GABranch).length : ℚ)
        < (1/10) / ((9/10) * (([⟨1, some 1⟩] : List GABranch).length : ℚ)))
    ∧ ((computeNashEquilibrium [⟨1, some 1⟩] [[0]]).stable_branches
        = ([⟨1, some 1⟩] : List GABranch).map GABranch.id)
    ∧ ((computeNashEquilibrium [⟨1, some 1⟩] [[0]]).eliminated_branches
        = []) :=
  computeNashEquilibrium_all_stable [⟨1, some 1⟩] [[0]] (by simp) (by simp)

/-! ## C4 — the Pareto front keeps exactly the non-dominated candidates -/

theorem dominatesGo_self (l : List (String × String)) (a : Solution)
    (sb : Bool) : dominatesGo l a a sb = sb := by
  induction l generalizing sb with
  | nil => rfl
  | cons p rest ih =>
    obtain ⟨obj, dir⟩ := p
    rw [dominatesGo]
    by_cases hd : dir = "max" <;> simp [hd, lt_irrefl, ih]

theorem dominates_self (objectives directions : List String) (a : Solution) :
    dominates objectives directions a a = false :=
  dominatesGo_self _ _ _

theorem dominatesGo_eq_true_iff (l : List (String × String)) (a b : Solution)
    (sb : Bool) :
    dominatesGo l a b sb = true ↔
      ((∀ p ∈ l, if p.snd = "max" then b.getObj p.fst ≤ a.getObj p.fst
          else a.getObj p.fst ≤ b.getObj p.fst)
        ∧ (sb = true ∨ ∃ p ∈ l,
            if p.snd = "max" then b.getObj p.fst < a.getObj p.fst
            else a.getObj p.fst < b.getObj p.fst)) := by
  induction l generalizing sb with
  | nil => simp [dominatesGo]
  | cons p rest ih =>
    obtain ⟨obj, dir⟩ := p
    rw [dominatesGo]
    by_cases hd : dir = "max"
    · subst hd
      by_cases hab : a.getObj obj < b.getObj obj
      · simp [hab, not_le.mpr hab]
      · simp only [if_pos rfl, if_neg hab, ih, List.mem_cons, if_true]
        constructor
        · rintro ⟨hw, hs⟩
          refine ⟨?_, ?_⟩
          · rintro q (rfl | hq)
            · simpa using not_lt.mp hab
            · exact hw q hq
          · rcases hs with hs | ⟨q, hq, hqs⟩
            · rcases (Bool.or_eq_true _ _).mp hs with hsb | hba
              · exact Or.inl hsb
              · exact Or.inr ⟨(obj, "max"), Or.inl rfl,
                  by simpa using of_decide_eq_true hba⟩
            · exact Or.inr ⟨q, Or.inr hq, hqs⟩
        · rintro ⟨hw, hs⟩
          refine ⟨fun q hq => hw q (Or.inr hq), ?_⟩
          rcases hs with hsb | ⟨q, hq, hqs⟩
          · exact Or.inl ((Bool.or_eq_true _ _).mpr (Or.inl hsb))
          · rcases hq with rfl | hq
            · exact Or.inl ((Bool.or_eq_true _ _).mpr
                (Or.inr (decide_eq_true (by simpa using hqs))))
            · exact Or.inr ⟨q, hq, hqs⟩
    · by_cases hab : b.getObj obj < a.getObj obj
      · simp [hd, hab, not_le.mpr hab]
      · simp only [hd, if_neg hab, ih, List.mem_cons, if_false]
        constructor
        · rintro ⟨hw, hs⟩
          refine ⟨?_, ?_⟩
          · rintro q (rfl | hq)
            · simpa [hd] using not_lt.mp hab
            · exact hw q hq
          · rcases hs with hs | ⟨q, hq, hqs⟩
            · rcases (Bool.or_eq_true _ _).mp hs with hsb | hba
              · exact Or.inl hsb
              · exact Or.inr ⟨(obj, dir), Or.inl rfl,
                  by simpa [hd] using of_decide_eq_true hba⟩
            · exact Or.inr ⟨q, Or.inr hq, hqs⟩
        · rintro ⟨hw, hs⟩
          refine ⟨fun q hq => hw q (Or.inr hq), ?_⟩
          rcases hs with hsb | ⟨q, hq, hqs⟩
          · exact Or.inl ((Bool.or_eq_true _ _).mpr (Or.inl hsb))
          · rcases hq with rfl | hq
            · exact Or.inl ((Bool.or_eq_true _ _).mpr
                (Or.inr (decide_eq_true (by simpa [hd] using hqs))))
            · exact Or.inr ⟨q, hq, hqs⟩

theorem dominates_eq_true_iff (objectives directions : List String)
    (a b : Solution) :
    dominates objectives directions a b = true ↔
      ((∀ p ∈ objectives.zip directions,
          if p.snd = "max" then b.getObj p.fst ≤ a.getObj p.fst
          else a.getObj p.fst ≤ b.getObj p.fst)
        ∧ ∃ p ∈ objectives.zip directions,
            if p.snd = "max" then b.getObj p.fst < a.getObj p.fst
            else a.getObj p.fst < b.getObj p.fst) := by
  rw [dominates, dominatesGo_eq_true_iff]
  simp

theorem dominates_eq_false_of_agree (objectives directions : List String)
    {a b : Solution}
    (hagree : ∀ obj ∈ objectives, a.getObj obj = b.getObj obj) :
    dominates objectives directions a b = false := by
  rw [Bool.eq_false_iff]
  intro htrue
  obtain ⟨-, p, hp, hstrict⟩ := (dominates_eq_true_iff _ _ _ _).mp htrue
  rw [hagree p.fst (List.of_mem_zip hp).1] at hstrict
  split at hstrict
  · exact lt_irrefl _ hstrict
  · exact lt_irrefl _ hstrict

theorem mem_computeParetoFront (objectives directions : List String)
    (solutions : List Solution) (c : Solution) :
    c ∈ computeParetoFront objectives directions solutions ↔
      c ∈ solutions ∧ ∀ o ∈ solutions, o ≠ c →
        dominates objectives directions o c = false := by
  rw [computeParetoFront]
  by_cases hnil : solutions = []
  · simp [hnil]
  · rw [if_neg hnil, List.mem_filter]
    constructor
    · rintro ⟨hc, hpred⟩
      rw [Bool.not_eq_true', List.any_eq_false] at hpred
      exact ⟨hc, fun o ho _ => Bool.eq_false_iff.mpr (hpred o ho)⟩
    · rintro ⟨hc, hnd⟩
      refine ⟨hc, ?_⟩
      rw [Bool.not_eq_true', List.any_eq_false]
      intro o ho
      by_cases hoc : o = c
      · rw [hoc]
        exact Bool.eq_false_iff.mp (dominates_self _ _ _)
      · exact Bool.eq_false_iff.mp (hnd o ho hoc)

theorem computeParetoFront_perm (objectives directions : List String)
    (s₁ s₂ : List Solution) (h : s₁.Perm s₂) :
    (computeParetoFront objectives directions s₁).Perm
      (computeParetoFront objectives directions s₂) := by
  by_cases hnil : s₁ = []
  · subst hnil
    rw [h.nil_eq]
  · have hnil₂ : s₂ ≠ [] := by
      intro h2
      subst h2
      exact hnil h.eq_nil
    rw [computeParetoFront, computeParetoFront, if_neg hnil, if_neg hnil₂]
    have hcongr : s₁.filter (fun candidate =>
        !(s₁.any (fun other => dominates objectives directions other candidate)))
        = s₁.filter (fun candidate =>
        !(s₂.any (fun other =>
            dominates objectives directions other candidate))) :=
      List.filter_congr (fun c _ => by
        rw [perm_any_eq h (fun other => dominates objectives directions other c)])
    rw [hcongr]
    exact h.filter _

theorem computeParetoFront_all_equal (objectives directions : List String)
    (solutions : List Solution)
    (hall : ∀ a ∈ solutions, ∀ b ∈ solutions, ∀ obj ∈ objectives,
      Solution.getObj a obj = Solution.getObj b obj) :
    computeParetoFront objectives directions solutions = solutions := by
  rw [computeParetoFront]
  by_cases hnil : solutions = []
  · rw [if_pos hnil, hnil]
  · rw [if_neg hnil]
    refine List.filter_eq_self.mpr (fun c hc => ?_)
    rw [Bool.not_eq_true', List.any_eq_false]
    intro o ho
    exact Bool.eq_false_iff.mp (dominates_eq_false_of_agree objectives
      directions (fun obj hobj => hall o ho c hc obj hobj))

/-- C4: `compute_pareto_front` returns exactly the candidates no other
candidate dominates (dominance: at least as good on every objective per its
direction and strictly better on one); the front is permutation-stable; the
empty list yields an empty front; and an all-equal candidate list is
returned whole. -/
theorem computeParetoFront_spec :
    (∀ (objectives directions : List String) (solutions : List Solution)
        (c : Solution),
        c ∈ computeParetoFront objectives directions solutions ↔
          c ∈ solutions ∧ ∀ o ∈ solutions, o ≠ c →
            dominates objectives directions o c = false)
    ∧ (∀ (objectives directions : List String) (a b : Solution),
        dominates objectives directions a b = true ↔
          ((∀ p ∈ objectives.zip directions,
              if p.snd = "max" then b.getObj p.fst ≤ a.getObj p.fst
              else a.getObj p.fst ≤ b.getObj p.fst)
            ∧ ∃ p ∈ objectives.zip directions,
                if p.snd = "max" then b.getObj p.fst < a.getObj p.fst
                else a.getObj p.fst < b.getObj p.fst))
    ∧ (∀ (objectives directions : List String) (s₁ s₂ : List Solution),
        s₁.Perm s₂ →
        (computeParetoFront objectives directions s₁).Perm
          (computeParetoFront objectives directions s₂))
    ∧ (∀ objectives directions : List String,
        computeParetoFront objectives directions [] = [])
    ∧ (∀ (objectives directions : List String) (solutions : List Solution),
        (∀ a ∈ solutions, ∀ b ∈ solutions, ∀ obj ∈ objectives,
          Solution.getObj a obj = Solution.getObj b obj) →
        computeParetoFront objectives directions solutions = solutions) :=
  ⟨mem_computeParetoFront, dominates_eq_true_iff, computeParetoFront_perm,
   fun _ _ => rfl, computeParetoFront_all_equal⟩

/-! ## C6 — the similarity-oscillation trigger -/

theorem posGet_mem_keys {m : List (String × String)} {branch_id : String}
    (h : posGet m branch_id ≠ "") : branch_id ∈ m.map Prod.fst := by
  rw [posGet] at h
  cases hl : m.lookup branch_id with
  | none => rw [hl] at h; simp at h
  | some s => exact List.mem_map_of_mem Prod.fst (lookup_mem hl)

theorem computePositionSimilarity_empty_right (a : String) :
    computePositionSimilarity a "" = 0 := by
  rw [computePositionSimilarity, if_pos (Or.inr rfl)]

theorem pySliceLast_length {α : Type} (l : List α) (k : ℕ) (hk : k ≠ 0)
    (h : k ≤ l.length) : (pySliceLast l k).length = k := by
  rw [pySliceLast, if_neg hk, List.length_drop]
  omega

theorem pySliceLast_getLast? {α : Type} (l : List α) (k : ℕ) (hk : k ≠ 0)
    (h : k ≤ l.length) : (pySliceLast l k).getLast? = l.getLast? := by
  have hne : l.drop (l.length - k) ≠ [] := by
    intro h0
    have hlen := congrArg List.length h0
    rw [List.length_drop] at hlen
    simp at hlen
    omega
  rw [pySliceLast, if_neg hk]
  conv_rhs => rw [← List.take_append_drop (l.length - k) l]
  rw [List.getLast?_append_of_ne_nil _ hne]

theorem checkSimilarityOscillation_iff (d : OscillationDetector)
    (hθ : 0 ≤ d.similarity_threshold) (hlen : 3 ≤ d.position_history.length) :
    d.checkSimilarityOscillation = true ↔
      ∃ branch_id : String,
        oscPattern d.similarity_threshold (d.windowPositions branch_id)
          = true := by
  rw [OscillationDetector.checkSimilarityOscillation,
    if_neg (not_lt.mpr hlen), List.any_eq_true]
  constructor
  · rintro ⟨bid, -, hpat⟩
    exact ⟨bid, hpat⟩
  · rintro ⟨bid, hpat⟩
    refine ⟨bid, ?_, hpat⟩
    obtain ⟨h0, h1, h2, hs⟩ := List.length_eq_three.mp
      (pySliceLast_length d.position_history 3 (by norm_num) hlen)
    have hwin : d.windowPositions bid
        = [posGet h0 bid, posGet h1 bid, posGet h2 bid] := by
      rw [OscillationDetector.windowPositions, hs]
      rfl
    rw [hwin, oscPattern] at hpat
    simp only [Bool.and_eq_true, decide_eq_true_eq] at hpat
    have hpos : (0:ℚ)
        < computePositionSimilarity (posGet h0 bid) (posGet h2 bid) :=
      lt_of_le_of_lt hθ hpat.1.1
    have hne2 : posGet h2 bid ≠ "" := by
      intro he
      rw [he, computePositionSimilarity_empty_right] at hpos
      exact lt_irrefl 0 hpos
    have hlast : d.position_history.getLast? = some h2 := by
      rw [← pySliceLast_getLast? d.position_history 3 (by norm_num) hlen, hs]
      rfl
    rw [hlast, Option.getD_some]
    exact posGet_mem_keys hne2

/-- C6: `check_oscillation` reports the similarity trigger iff at least three
rounds are recorded and some branch's three-round window `[p0, p1, p2]` has
`sim(p0, p2)` above the threshold while both adjacent similarities are below
it (for any non-negative threshold; the default is 0.85). -/
theorem check_oscillation_similarity_iff (d : OscillationDetector)
    (hθ : 0 ≤ d.similarity_threshold) :
    d.check_oscillation = some OscTrigger.similarity ↔
      (3 ≤ d.position_history.length ∧
        ∃ branch_id : String,
          oscPattern d.similarity_threshold (d.windowPositions branch_id)
            = true) := by
  rw [OscillationDetector.check_oscillation]
  by_cases hlen : d.position_history.length < 3
  · rw [if_pos hlen]
    constructor
    · intro h
      exact absurd h (by simp)
    · rintro ⟨h3, -⟩
      omega
  · have h3 : 3 ≤ d.position_history.length := not_lt.mp hlen
    rw [if_neg hlen]
    by_cases hsim : d.checkSimilarityOscillation
    · rw [if_pos hsim]
      exact iff_of_true rfl
        ⟨h3, (checkSimilarityOscillation_iff d hθ h3).mp hsim⟩
    · rw [if_neg hsim]
      constructor
      · intro h
        split at h
        · exact absurd h (by simp)
        · exact absurd h (by simp)
      · rintro ⟨-, hex⟩
        exact absurd ((checkSimilarityOscillation_iff d hθ h3).mpr hex)
          (by simpa using hsim)

theorem pyWords_alpha : pyWords "alpha" = ["alpha"] := by decide

theorem sim_self_alpha : computePositionSimilarity "alpha" "alpha" = 1 := by
  rw [computePositionSimilarity, if_neg (by simp)]
  rw [wordOverlapSimilarity]
  simp only [pyWords_alpha]
  rw [if_neg (by decide), Finset.inter_self, Finset.union_self]
  rw [if_pos (by decide)]
  norm_num

theorem sim_alpha_gamma : computePositionSimilarity "alpha" "gamma" = 0 := by
  rw [computePositionSimilarity, if_neg (by simp)]
  rw [wordOverlapSimilarity]
  rw [show (pyWords "alpha").toFinset ∩ (pyWords "gamma").toFinset = ∅ from
    by decide]
  simp

theorem sim_gamma_alpha : computePositionSimilarity "gamma" "alpha" = 0 := by
  rw [computePositionSimilarity, if_neg (by simp)]
  rw [wordOverlapSimilarity]
  rw [show (pyWords "gamma").toFinset ∩ (pyWords "alpha").toFinset = ∅ from
    by decide]
  simp

/-- C6 (witness): rounds `[A, B, A]` with `A = "alpha"`, `B = "gamma"` —
`sim(A, A) = 1 > 0.85` and `sim(A, B) = 0 < 0.85` — trigger the similarity
oscillation. -/
theorem check_oscillation_similarity_witness :
    OscillationDetector.check_oscillation
      ⟨17/20, 1/10, 3,
        [[("b", "alpha")], [("b", "gamma")], [("b", "alpha")]],
        [1/2, 2/5, 3/10]⟩ = some OscTrigger.similarity := by
  refine (check_oscillation_similarity_iff
    ⟨17/20, 1/10, 3, [[("b", "alpha")], [("b", "gamma")], [("b", "alpha")]],
      [1/2, 2/5, 3/10]⟩ (by norm_num)).mpr ⟨by norm_num, "b", ?_⟩
  have hwin : OscillationDetector.windowPositions
      ⟨17/20, 1/10, 3, [[("b", "alpha")], [("b", "gamma")], [("b", "alpha")]],
        [1/2, 2/5, 3/10]⟩ "b" = ["alpha", "gamma", "alpha"] := by
    rfl
  rw [hwin]
  show oscPattern (17/20) ["alpha", "gamma", "alpha"] = true
  rw [oscPattern]
  rw [sim_self_alpha, sim_alpha_gamma, sim_gamma_alpha]
  norm_num

/-! ## C5 — the entropy-stagnation check needs a fourth recorded entry -/

/-- C5 (counterexample): with the default parameters and the three-entry
history `[0.5, 0.5, 0.5]` — over whose last three entries no consecutive pair
decreases by 0.1 — `check_entropy_stagnation` still returns `False`, because
it first requires strictly more than `stagnation_rounds` recorded entries. -/
theorem check_entropy_stagnation_counterexample :
    (OscillationDetector.check_entropy_stagnation
        ⟨17/20, 1/10, 3, [], [1/2, 1/2, 1/2]⟩ = false)
    ∧ (∀ i : ℕ, i + 1 < (pySliceLast ([1/2, 1/2, 1/2] : List ℚ) 3).length →
        (pySliceLast ([1/2, 1/2, 1/2] : List ℚ) 3).getD i 0
          - (pySliceLast ([1/2, 1/2, 1/2] : List ℚ) 3).getD (i+1) 0
          < 1/10) := by
  constructor
  · rfl
  · intro i hi
    have hsl : pySliceLast ([1/2, 1/2, 1/2] : List ℚ) 3 = [1/2, 1/2, 1/2] :=
      rfl
    rw [hsl] at hi ⊢
    simp only [List.length_cons, List.length_nil] at hi
    have h2 : i ≤ 1 := by omega
    interval_cases i <;>
      norm_num [List.getD_cons_zero, List.getD_cons_succ]

/-- C5 (amended): with the default parameters, `check_entropy_stagnation`
returns `True` iff at least `stagnation_rounds + 1 = 4` entropies are
recorded and no consecutive pair of the last three entries decreases by at
least 0.1. -/
theorem check_entropy_stagnation_amended (entropy_history : List ℚ) :
    (OscillationDetector.check_entropy_stagnation
        ⟨17/20, 1/10, 3, [], entropy_history⟩ = true) ↔
      (3 + 1 ≤ entropy_history.length ∧
        ∀ i : ℕ, i + 1 < (pySliceLast entropy_history 3).length →
          (pySliceLast entropy_history 3).getD i 0
            - (pySliceLast entropy_history 3).getD (i+1) 0 < 1/10) := by
  rw [OscillationDetector.check_entropy_stagnation]
  by_cases hlen : entropy_history.length < 3 + 1
  · rw [if_pos hlen]
    simp only [Bool.false_eq_true, false_iff, not_and]
    intro h4
    omega
  · rw [if_neg hlen]
    have heq := zip_tail_all_iff
      (fun p c => !(decide ((1:ℚ)/10 ≤ p - c))) (pySliceLast entropy_history 3)
    constructor
    · intro hall
      refine ⟨not_lt.mp hlen, ?_⟩
      intro i hi
      have hgi := heq.mp hall i hi
      simpa [not_le] using hgi
    · rintro ⟨-, hd⟩
      refine heq.mpr ?_
      intro i hi
      simpa [not_le] using hd i hi

/-- C5 (witness): the monotonically decreasing history `[0.9, 0.6, 0.3]`
never triggers entropy stagnation. -/
theorem check_entropy_stagnation_amended_witness :
    OscillationDetector.check_entropy_stagnation
      ⟨17/20, 1/10, 3, [], [9/10, 6/10, 3/10]⟩ = false := by
  rw [Bool.eq_false_iff]
  intro htrue
  have h := (check_entropy_stagnation_amended [9/10, 6/10, 3/10]).mp htrue
  have h4 : (3:ℕ) + 1 ≤ 3 := by simpa using h.1
  omega

/-! ## C1 — check_convergence fires MaxRounds, Oscillation, EntropyStagnation
in strict order -/

/-- C1: `check_convergence` checks max rounds, then oscillation, then entropy
stagnation, returning the first trigger that fires (`None` when none does);
and with `max_rounds = 3`, after three rounds recorded through
`record_round` — even with positions and entropies that trigger neither
oscillation nor stagnation — it returns the MaxRounds trigger. -/
theorem check_convergence_strict_order (c : ConvergenceController) :
    ((c.check_max_rounds = true →
        c.check_convergence = some ConvergenceTrigger.max_rounds)
    ∧ (c.check_max_rounds = false → c.check_oscillation = true →
        c.check_convergence = some ConvergenceTrigger.oscillation)
    ∧ (c.check_max_rounds = false → c.check_oscillation = false →
        c.check_entropy_stagnation = true →
        c.check_convergence = some ConvergenceTrigger.entropy_stagnation)
    ∧ (c.check_max_rounds = false → c.check_oscillation = false →
        c.check_entropy_stagnation = false → c.check_convergence = none))
    ∧ (∀ (p₁ p₂ p₃ : List (String × String)) (e₁ e₂ e₃ : ℚ),
        ((((ConvergenceController.mkDefault 3).record_round p₁ e₁).record_round
            p₂ e₂).record_round p₃ e₃).check_oscillation = false →
        ((((ConvergenceController.mkDefault 3).record_round p₁ e₁).record_round
            p₂ e₂).record_round p₃ e₃).check_entropy_stagnation = false →
        ((((ConvergenceController.mkDefault 3).record_round p₁ e₁).record_round
            p₂ e₂).record_round p₃ e₃).check_convergence
          = some ConvergenceTrigger.max_rounds) := by
  constructor
  · refine ⟨fun h1 => ?_, fun h1 h2 => ?_, fun h1 h2 h3 => ?_,
      fun h1 h2 h3 => ?_⟩
    · rw [ConvergenceController.check_convergence, if_pos h1]
    · rw [ConvergenceController.check_convergence, h1, if_neg (by simp),
        if_pos h2]
    · rw [ConvergenceController.check_convergence, h1, if_neg (by simp), h2,
        if_neg (by simp), if_pos h3]
    · rw [ConvergenceController.check_convergence, h1, if_neg (by simp), h2,
        if_neg (by simp), h3, if_neg (by simp)]
  · intro p₁ p₂ p₃ e₁ e₂ e₃ hosc hstag
    have hmax : ((((ConvergenceController.mkDefault 3).record_round
        p₁ e₁).record_round p₂ e₂).record_round p₃ e₃).check_max_rounds
          = true := rfl
    rw [ConvergenceController.check_convergence, if_pos hmax]

/-- C1 (witness): three recorded rounds with no branch positions and strictly
decreasing entropies — neither oscillation nor stagnation fires — still end
in the MaxRounds trigger at `max_rounds = 3`. -/
theorem check_convergence_strict_order_witness :
    ((((ConvergenceController.mkDefault 3).record_round [] (9/10)).record_round
        [] (6/10)).record_round [] (3/10)).check_convergence
      = some ConvergenceTrigger.max_rounds :=
  (check_convergence_strict_order (ConvergenceController.mkDefault 3)).2
    [] [] [] (9/10) (6/10) (3/10) rfl rfl

/-! ## C8 — minimal cut sets -/

theorem insertByCard_perm (s : Finset String) (l : List (Finset String)) :
    (insertByCard s l).Perm (s :: l) := by
  induction l with
  | nil => rfl
  | cons t rest ih =>
    rw [insertByCard]
    split
    · exact ((ih.cons t).trans (List.Perm.swap s t rest)).symm.symm
    · exact List.Perm.refl _

theorem sortByCard_perm (l : List (Finset String)) : (sortByCard l).Perm l := by
  suffices h : ∀ acc : List (Finset String),
      (l.foldl (fun sorted_sets s => insertByCard s sorted_sets) acc).Perm
        (acc ++ l) by
    simpa using h []
  induction l with
  | nil => intro acc; simp
  | cons s rest ih =>
    intro acc
    rw [List.foldl_cons]
    refine (ih (insertByCard s acc)).trans ?_
    have h1 : (insertByCard s acc ++ rest).Perm ((s :: acc) ++ rest) :=
      (insertByCard_perm s acc).append_right rest
    refine h1.trans ?_
    simp only [List.cons_append]
    exact List.perm_middle.symm.symm.symm

theorem minimizeGo_mem {L acc : List (Finset String)}
    (hL : ∀ t ∈ L, t.card = 1) (hacc : ∀ t ∈ acc, t.card = 1)
    (s : Finset String) :
    s ∈ minimizeGo acc L ↔ s ∈ acc ∨ s ∈ L := by
  induction L generalizing acc with
  | nil => simp [minimizeGo]
  | cons cs rest ih =>
    rw [minimizeGo]
    have hcs : cs.card = 1 := hL cs (List.mem_cons_self _ _)
    have hrest : ∀ t ∈ rest, t.card = 1 :=
      fun t ht => hL t (List.mem_cons_of_mem _ ht)
    by_cases hany : acc.any (fun existing => existing ⊆ cs)
    · rw [if_pos hany]
      obtain ⟨ex, hex, hsub⟩ := List.any_eq_true.mp hany
      have hex1 : ex.card = 1 := hacc ex hex
      have hexcs : ex = cs := Finset.eq_of_subset_of_card_le
        (by simpa using hsub) (by omega)
      subst hexcs
      rw [ih hrest hacc]
      constructor
      · rintro (h | h)
        · exact Or.inl h
        · exact Or.inr (List.mem_cons_of_mem _ h)
      · rintro (h | h)
        · exact Or.inl h
        · rcases List.mem_cons.mp h with rfl | h
          · exact Or.inl hex
          · exact Or.inr h
    · rw [if_neg hany]
      have hprune : acc.filter (fun m => !(cs ⊂ m)) = acc := by
        refine List.filter_eq_self.mpr (fun m hm => ?_)
        have hm1 : m.card = 1 := hacc m hm
        have hnss : ¬ cs ⊂ m := fun hss => by
          have := Finset.card_lt_card hss
          omega
        simp [hnss]
      rw [hprune]
      have hcsnot : cs ∉ acc := by
        intro hin
        exact absurd (List.any_eq_true.mpr ⟨cs, hin, by simp⟩) hany
      rw [appendIfNew, if_neg hcsnot]
      have haccext : ∀ t ∈ acc ++ [cs], t.card = 1 := by
        intro t ht
        rcases List.mem_append.mp ht with h | h
        · exact hacc t h
        · rw [List.mem_singleton.mp h]
          exact hcs
      rw [ih hrest haccext]
      simp only [List.mem_append, List.mem_singleton, List.mem_cons]
      tauto

theorem mem_minimizeCutSets {L : List (Finset String)}
    (hL : ∀ t ∈ L, t.card = 1) (s : Finset String) :
    s ∈ minimizeCutSets L ↔ s ∈ L := by
  rw [minimizeCutSets]
  by_cases hnil : L = []
  · simp [hnil]
  · rw [if_neg hnil]
    have hperm := sortByCard_perm L
    have hsort : ∀ t ∈ sortByCard L, t.card = 1 :=
      fun t ht => hL t (hperm.mem_iff.mp ht)
    rw [minimizeGo_mem hsort (by simp) s]
    simp [hperm.mem_iff]

theorem mem_foldl_filter_middle (rest : List (List String))
    (init : List String) (n : String) :
    n ∈ rest.foldl
        (fun common path => common.filter (fun m => m ∈ pyMiddle path)) init ↔
      n ∈ init ∧ ∀ p ∈ rest, n ∈ pyMiddle p := by
  induction rest generalizing init with
  | nil => simp
  | cons p rest ih =>
    rw [List.foldl_cons, ih]
    simp only [List.mem_filter, List.mem_cons, decide_eq_true_eq]
    constructor
    · rintro ⟨⟨h1, h2⟩, h3⟩
      exact ⟨h1, fun q hq => by
        rcases hq with rfl | hq
        · exact h2
        · exact h3 q hq⟩
    · rintro ⟨h1, h2⟩
      exact ⟨⟨h1, h2 p (Or.inl rfl)⟩, fun q hq => h2 q (Or.inr hq)⟩

theorem mem_commonMiddle {paths : List (List String)} (hne : paths ≠ [])
    (n : String) :
    n ∈ commonMiddle paths ↔ ∀ p ∈ paths, n ∈ pyMiddle p := by
  obtain ⟨p₀, rest, rfl⟩ := List.exists_cons_of_ne_nil hne
  rw [commonMiddle, List.tail_cons, List.headD_cons,
    mem_foldl_filter_middle, List.mem_dedup]
  constructor
  · rintro ⟨h1, h2⟩
    intro q hq
    rcases List.mem_cons.mp hq with rfl | hq
    · exact h1
    · exact h2 q hq
  · intro h
    exact ⟨h p₀ (List.mem_cons_self _ _),
      fun q hq => h q (List.mem_cons_of_mem _ hq)⟩

theorem mem_leafCutSets (g : PGraph) (goal_node_id leaf : String)
    (s : Finset String) :
    s ∈ g.leafCutSets goal_node_id leaf ↔
      ∃ n : String, s = {n} ∧ g.pathsTo goal_node_id leaf ≠ [] ∧
        ∀ p ∈ g.pathsTo goal_node_id leaf, n ∈ pyMiddle p := by
  rw [PGraph.leafCutSets]
  by_cases hnil : g.pathsTo goal_node_id leaf = []
  · simp [hnil]
  · rw [if_neg hnil]
    by_cases h1 : (g.pathsTo goal_node_id leaf).length = 1
    · rw [if_pos h1]
      obtain ⟨p₀, hp₀⟩ := List.length_eq_one.mp h1
      rw [hp₀, List.headD_cons, List.mem_map]
      constructor
      · rintro ⟨n, hn, rfl⟩
        refine ⟨n, rfl, by simp, ?_⟩
        intro q hq
        rw [List.mem_singleton.mp hq]
        exact hn
      · rintro ⟨n, rfl, -, hall⟩
        exact ⟨n, hall p₀ (List.mem_singleton.mpr rfl), rfl⟩
    · rw [if_neg h1, List.mem_map]
      constructor
      · rintro ⟨n, hn, rfl⟩
        exact ⟨n, rfl, hnil, (mem_commonMiddle hnil n).mp hn⟩
      · rintro ⟨n, rfl, -, hall⟩
        exact ⟨n, (mem_commonMiddle hnil n).mpr hall, rfl⟩

/-- C8: `compute_minimal_cut_sets` returns, over all leaves, exactly the
singleton sets `{n}` with `n` on every enumerated goal-to-leaf path
(excluding the path's first and last node) of a leaf that has at least one
path (non-minimal supersets being removed leaves only deduplication among
singletons); the diamond graph yields `[]` and the chain yields `[{A}]`. -/
theorem computeMinimalCutSets_spec :
    (∀ (g : PGraph) (goal_node_id : String) (s : Finset String),
        s ∈ g.computeMinimalCutSets goal_node_id ↔
          ∃ n : String, s = {n} ∧ ∃ leaf ∈ g.findLeafNodes,
            (g.pathsTo goal_node_id leaf ≠ [] ∧
              ∀ p ∈ g.pathsTo goal_node_id leaf, n ∈ pyMiddle p))
    ∧ (PGraph.computeMinimalCutSets
        ⟨["Goal", "A", "B", "Leaf"],
         [⟨"Goal", "A", "decompose"⟩, ⟨"Goal", "B", "decompose"⟩,
          ⟨"A", "Leaf", "decompose"⟩, ⟨"B", "Leaf", "decompose"⟩]⟩ "Goal" = [])
    ∧ (PGraph.computeMinimalCutSets
        ⟨["Goal", "A", "Leaf"],
         [⟨"Goal", "A", "decompose"⟩, ⟨"A", "Leaf", "decompose"⟩]⟩ "Goal"
        = [{"A"}]) := by
  refine ⟨?_, by decide, by decide⟩
  intro g goal_node_id s
  rw [PGraph.computeMinimalCutSets]
  by_cases hleaf : g.findLeafNodes = []
  · simp [hleaf]
  · rw [if_neg hleaf]
    have hsing : ∀ t ∈ (g.findLeafNodes.map
        (fun leaf => g.leafCutSets goal_node_id leaf)).flatten,
        t.card = 1 := by
      intro t ht
      rw [List.mem_flatten] at ht
      obtain ⟨l, hl, htl⟩ := ht
      obtain ⟨leaf, hleafmem, rfl⟩ := List.mem_map.mp hl
      obtain ⟨n, rfl, -, -⟩ := (mem_leafCutSets g goal_node_id leaf t).mp htl
      simp
    rw [mem_minimizeCutSets hsing, List.mem_flatten]
    constructor
    · rintro ⟨l, hl, hsl⟩
      obtain ⟨leaf, hleafmem, rfl⟩ := List.mem_map.mp hl
      obtain ⟨n, rfl, hne, hall⟩ :=
        (mem_leafCutSets g goal_node_id leaf s).mp hsl
      exact ⟨n, rfl, leaf, hleafmem, hne, hall⟩
    · rintro ⟨n, rfl, leaf, hleafmem, hne, hall⟩
      exact ⟨g.leafCutSets goal_node_id leaf,
        List.mem_map_of_mem _ hleafmem,
        (mem_leafCutSets g goal_node_id leaf _).mpr ⟨n, rfl, hne, hall⟩⟩

/-! ## C9 — the redundancy ratio and its edge cases -/

theorem pathCounts_eq (g : PGraph) (goal_node_id : String) :
    g.pathCounts goal_node_id =
      ((g.findLeafNodes.filter
          (fun leaf => (g.pathsTo goal_node_id leaf).length = 1)).length,
        ((g.findLeafNodes.filter
          (fun leaf => (g.pathsTo goal_node_id leaf).length ≠ 1)).map
            (fun leaf => (g.pathsTo goal_node_id leaf).length)).sum) := by
  rw [PGraph.pathCounts]
  suffices h : ∀ (leaves : List String) (acc : ℕ × ℕ),
      leaves.foldl (fun counts leaf =>
        let paths := g.pathsTo goal_node_id leaf
        if paths.length = 1 then (counts.fst + 1, counts.snd)
        else (counts.fst, counts.snd + paths.length)) acc =
      (acc.fst + (leaves.filter
          (fun leaf => (g.pathsTo goal_node_id leaf).length = 1)).length,
        acc.snd + ((leaves.filter
          (fun leaf => (g.pathsTo goal_node_id leaf).length ≠ 1)).map
            (fun leaf => (g.pathsTo goal_node_id leaf).length)).sum) by
    rw [h g.findLeafNodes (0, 0)]
    simp
  intro leaves
  induction leaves with
  | nil => intro acc; simp
  | cons leaf rest ih =>
    intro acc
    rw [List.foldl_cons]
    by_cases h1 : (g.pathsTo goal_node_id leaf).length = 1
    · simp only [h1, if_pos rfl, ih, List.filter_cons]
      simp [h1, add_assoc, add_comm]
    · simp only [if_neg h1, ih, List.filter_cons]
      simp only [h1, decide_eq_true_eq]
      rw [if_pos h1]
      simp only [List.map_cons, List.sum_cons, Prod.mk.injEq]
      constructor
      · simp [h1]
      · omega

/-- C9: `compute_redundancy_ratio` divides the redundant-path count by the
critical-path count (a leaf with exactly one enumerated path is critical;
every path of a multi-path leaf counts as redundant), returning `inf` when
redundant paths exist but no critical one, 1.0 when there are neither
(including a graph with no leaves), and a finite positive ratio on a graph
with one single-path leaf and one two-path leaf. -/
theorem computeRedundancyRatio_spec :
    (∀ (g : PGraph) (goal_node_id : String),
        g.pathCounts goal_node_id =
          ((g.findLeafNodes.filter
              (fun leaf => (g.pathsTo goal_node_id leaf).length = 1)).length,
            ((g.findLeafNodes.filter
              (fun leaf => (g.pathsTo goal_node_id leaf).length ≠ 1)).map
                (fun leaf => (g.pathsTo goal_node_id leaf).length)).sum))
    ∧ (∀ (g : PGraph) (goal_node_id : String),
        ((g.pathCounts goal_node_id).fst ≠ 0 →
          g.computeRedundancyRatio goal_node_id =
            RatioValue.finite (((g.pathCounts goal_node_id).snd : ℚ)
              / ((g.pathCounts goal_node_id).fst : ℚ)))
      ∧ ((g.pathCounts goal_node_id).fst = 0 →
          0 < (g.pathCounts goal_node_id).snd →
          g.computeRedundancyRatio goal_node_id = RatioValue.infinity)
      ∧ ((g.pathCounts goal_node_id).fst = 0 →
          (g.pathCounts goal_node_id).snd = 0 →
          g.computeRedundancyRatio goal_node_id = RatioValue.finite 1))
    ∧ (∀ goal_node_id : String,
        (PGraph.findLeafNodes ⟨[], []⟩ = []) ∧
          PGraph.computeRedundancyRatio ⟨[], []⟩ goal_node_id
            = RatioValue.finite 1)
    ∧ ((PGraph.computeRedundancyRatio
          ⟨["Goal", "B", "C", "L1", "L2"],
           [⟨"Goal", "L1", "decompose"⟩, ⟨"Goal", "B", "decompose"⟩,
            ⟨"Goal", "C", "decompose"⟩, ⟨"B", "L2", "decompose"⟩,
            ⟨"C", "L2", "decompose"⟩]⟩ "Goal" = RatioValue.finite 2)
        ∧ (0:ℚ) < 2) := by
  refine ⟨pathCounts_eq, ?_, ?_, ?_, by norm_num⟩
  · intro g goal_node_id
    refine ⟨fun hc => ?_, fun hc hr => ?_, fun hc hr => ?_⟩
    · rw [PGraph.computeRedundancyRatio, if_neg hc]
    · rw [PGraph.computeRedundancyRatio, if_pos hc, if_pos hr]
    · rw [PGraph.computeRedundancyRatio, if_pos hc,
        if_neg (by omega : ¬ 0 < (g.pathCounts goal_node_id).snd)]
  · intro goal_node_id
    exact ⟨rfl, rfl⟩
  · rw [PGraph.computeRedundancyRatio,
      show (PGraph.pathCounts
        ⟨["Goal", "B", "C", "L1", "L2"],
         [⟨"Goal", "L1", "decompose"⟩, ⟨"Goal", "B", "decompose"⟩,
          ⟨"Goal", "C", "decompose"⟩, ⟨"B", "L2", "decompose"⟩,
          ⟨"C", "L2", "decompose"⟩]⟩ "Goal") = (1, 2) from by decide]
    norm_num

end YesBut
